import Mathlib

/-!
Verification development for the mondrian generator (`src/main.rs`).

The embedding models:
  * `Rectangle` and `Rectangle.split` (main.rs 128-178); the f32 ratio drawn by
    `rng.gen_range(0.4..=0.6)` is modelled as a rational parameter, and
    `(e as f32 * ratio).trunc() as u32` as `(⌊(e : ℚ) * ratio⌋).toNat`
    (trunc = floor for the nonnegative values that arise).  The `bool` drawn by
    `random()` in the unforced-axis branch is a `Bool` parameter.
  * u32 arithmetic: `a / b` panics on `b = 0` (`checkedDiv` returns `none`),
    `saturating_add`/`saturating_sub` clamp into `[0, 2^32-1]`, and the plain
    `-` at main.rs line 236 underflows below zero (`checkedSub` returns `none`
    for the panicking debug semantics, `wrapSub` gives the wrapping release
    semantics).
  * `Tree`, `Tree::split` and `Tree::leaves` (main.rs 66-126); `Tree::split`
    either installs both children or leaves both absent, so the tree is a full
    binary tree and is modelled by a two-constructor inductive.  The recursion
    guard `depth >= max_depth` is modelled by the remaining fuel
    `max_depth - depth`.  Randomness consumed by the splits is an oracle
    indexed by the node's path from the root.
  * the paint loop of `main` (main.rs 204-241), pointwise on a functional
    pixel buffer.  `RgbImage::new` zero-initialises, so the initial buffer is
    all black.
-/

namespace Mondrian

/-- `2^32`, the u32 modulus. -/
def U32MOD : ℕ := 4294967296

/-- Rust `a / b` on u32: panics (`none`) when `b = 0`. -/
def checkedDiv (a b : ℕ) : Option ℕ :=
  if b = 0 then none else some (a / b)

/-- Rust `a - b` on u32 under debug semantics: panics (`none`) on underflow. -/
def checkedSub (a b : ℕ) : Option ℕ :=
  if b ≤ a then some (a - b) else none

/-- Rust `a.saturating_sub b` on u32 (ℕ subtraction is already clamped at 0). -/
def satSub (a b : ℕ) : ℕ := a - b

/-- Rust `a.saturating_add b` on u32: clamped at `2^32 - 1`. -/
def satAdd (a b : ℕ) : ℕ := min (a + b) (U32MOD - 1)

/-- Rust `a - b` on u32 under release semantics: wraps modulo `2^32`
(valid for `a, b < 2^32`, which holds for all values that arise). -/
def wrapSub (a b : ℕ) : ℕ := if b ≤ a then a - b else a + U32MOD - b

/-- `struct Rectangle` (main.rs 128-134). -/
structure Rectangle where
  x : ℕ
  y : ℕ
  width : ℕ
  height : ℕ
deriving DecidableEq

/-- The set of pixels covered by a rectangle:
columns `[x, x+width)`, rows `[y, y+height)`. -/
def Rectangle.contains (r : Rectangle) (p : ℕ × ℕ) : Prop :=
  r.x ≤ p.1 ∧ p.1 < r.x + r.width ∧ r.y ≤ p.2 ∧ p.2 < r.y + r.height

instance (r : Rectangle) (p : ℕ × ℕ) : Decidable (r.contains p) := by
  unfold Rectangle.contains; infer_instance

/-- `(extent as f32 * ratio).trunc() as u32` (main.rs 167, 173). -/
def splitExtent (e : ℕ) (ratio : ℚ) : ℕ := (⌊(e : ℚ) * ratio⌋).toNat

/-- Axis selection of `Rectangle::split` (main.rs 152-161): forced horizontal
when `width / height > 2`, forced vertical when `height / width > 2`, else the
`random()` coin `rnd`.  Rust integer division panics when the divisor is zero,
so the result is an `Option`. -/
def Rectangle.chooseAxis (r : Rectangle) (rnd : Bool) : Option Bool :=
  match checkedDiv r.width r.height with
  | none => none
  | some q1 =>
    if q1 > 2 then some true
    else
      match checkedDiv r.height r.width with
      | none => none
      | some q2 => if q2 > 2 then some false else some rnd

/-- `Rectangle::split` (main.rs 146-178).  `rnd` is the `random()` coin used
when the aspect ratio does not force an axis, `ratio` the value drawn by
`rng.gen_range(0.4..=0.6)`.  The subtractions `self.width - width` and
`self.height - height` (main.rs 170, 175) never underflow for ratios below 1,
which the rng guarantees. -/
def Rectangle.split (r : Rectangle) (rnd : Bool) (ratio : ℚ) :
    Option (Rectangle × Rectangle) :=
  match r.chooseAxis rnd with
  | none => none
  | some true =>
    let w := splitExtent r.width ratio
    some (⟨r.x, r.y, w, r.height⟩, ⟨r.x + w, r.y, r.width - w, r.height⟩)
  | some false =>
    let h := splitExtent r.height ratio
    some (⟨r.x, r.y, r.width, h⟩, ⟨r.x, r.y + h, r.width, r.height - h⟩)

/-- `struct Tree` (main.rs 66-75).  `Tree::split` installs either both
children or none, so every reachable tree is full and a node is a leaf iff it
has no children. -/
inductive Tree where
  | leaf : Rectangle → Tree
  | node : Rectangle → Tree → Tree → Tree
deriving DecidableEq

/-- `Tree::leaves` (main.rs 78-93): left subtree's leaves, then the right
subtree's; a childless node yields its own item. -/
def Tree.leaves : Tree → List Rectangle
  | .leaf r => [r]
  | .node _ l rt => l.leaves ++ rt.leaves

/-- `Tree::split` driven from `main` (main.rs 110-125, 186-188): recursion
stops when `depth >= max_depth`, i.e. when the remaining fuel
`max_depth - depth` is zero.  `orc` supplies, per node path (`false` = left
child, `true` = right child, root = `[]`), the `random()` coin and the
`gen_range(0.4..=0.6)` ratio consumed by that node's `Rectangle::split`.
A panicking split makes the whole build panic (`none`). -/
def build (orc : List Bool → Bool × ℚ) : ℕ → Rectangle → List Bool → Option Tree
  | 0, r, _ => some (.leaf r)
  | n + 1, r, path =>
    match r.split (orc path).1 (orc path).2 with
    | none => none
    | some (l, rt) =>
      match build orc n l (false :: path), build orc n rt (true :: path) with
      | some tl, some tr => some (.node r tl tr)
      | _, _ => none

/-- An RGB pixel. -/
structure Rgb where
  r : ℕ
  g : ℕ
  b : ℕ
deriving DecidableEq

/-- `Rgb([0, 0, 0])`. -/
def black : Rgb := ⟨0, 0, 0⟩

/-- `max(args.width, args.height).div_euclid(1000)` (main.rs 197). -/
def borderWidth (w h : ℕ) : ℕ := max w h / 1000

/-- Interior fill region of a leaf (main.rs 208-213): columns
`[x + B, sat(sat(x + width) - B))`, rows `[y + B, sat(sat(y + height) - B))`,
with saturating u32 arithmetic on the upper bounds. -/
def interiorMem (r : Rectangle) (B : ℕ) (p : ℕ × ℕ) : Prop :=
  r.x + B ≤ p.1 ∧ p.1 < satSub (satAdd r.x r.width) B ∧
  r.y + B ≤ p.2 ∧ p.2 < satSub (satAdd r.y r.height) B

/-- Top border band (main.rs 218-222): columns `[x, width)` — note the
absolute upper bound `rectangle.width`, not `x + width` — rows `[y, y+B)`. -/
def topBandMem (r : Rectangle) (B : ℕ) (p : ℕ × ℕ) : Prop :=
  r.x ≤ p.1 ∧ p.1 < r.width ∧ r.y ≤ p.2 ∧ p.2 < r.y + B

/-- Bottom border band (main.rs 218, 223-226): columns `[x, width)` (same
absolute bound), rows `[(y + height).saturating_sub(B), y + height)`. -/
def bottomBandMem (r : Rectangle) (B : ℕ) (p : ℕ × ℕ) : Prop :=
  r.x ≤ p.1 ∧ p.1 < r.width ∧
  satSub (r.y + r.height) B ≤ p.2 ∧ p.2 < r.y + r.height

/-- Left border band, first row loop (main.rs 230-234): columns `[x, x+B)`,
rows `[y, y + height)`.  The loop head comment says "left and right" but the
column range covers only the left edge. -/
def leftBandMem (r : Rectangle) (B : ℕ) (p : ℕ × ℕ) : Prop :=
  r.x ≤ p.1 ∧ p.1 < r.x + B ∧ r.y ≤ p.2 ∧ p.2 < r.y + r.height

/-- Left border band, second row loop (main.rs 236-239): columns `[x, x+B)`,
rows `[y + height - B, y + height)` with the *unchecked* u32 subtraction of
line 236, taken here with wrapping (release) semantics: an underflow wraps to
a huge lower bound and the row range is empty. -/
def leftBandBottomMem (r : Rectangle) (B : ℕ) (p : ℕ × ℕ) : Prop :=
  r.x ≤ p.1 ∧ p.1 < r.x + B ∧
  wrapSub (r.y + r.height) B ≤ p.2 ∧ p.2 < r.y + r.height

/-- All pixels painted black for one leaf (main.rs 215-240). -/
def borderMem (r : Rectangle) (B : ℕ) (p : ℕ × ℕ) : Prop :=
  topBandMem r B p ∨ bottomBandMem r B p ∨ leftBandMem r B p ∨
  leftBandBottomMem r B p

/-- All pixels written at all while painting one leaf (main.rs 204-241). -/
def writesMem (r : Rectangle) (B : ℕ) (p : ℕ × ℕ) : Prop :=
  interiorMem r B p ∨ borderMem r B p

instance (r : Rectangle) (B : ℕ) (p : ℕ × ℕ) : Decidable (interiorMem r B p) := by
  unfold interiorMem; infer_instance

instance (r : Rectangle) (B : ℕ) (p : ℕ × ℕ) : Decidable (borderMem r B p) := by
  unfold borderMem topBandMem bottomBandMem leftBandMem leftBandBottomMem
  infer_instance

instance (r : Rectangle) (B : ℕ) (p : ℕ × ℕ) : Decidable (writesMem r B p) := by
  unfold writesMem; infer_instance

/-- Effect of one iteration of the leaf loop (main.rs 204-241) on the pixel
buffer, pointwise: the interior fill runs first and the black border loops
run after it, so a pixel in any border band is black, otherwise an interior
pixel has the sampled color, otherwise the pixel keeps its previous value. -/
def paintLeaf (r : Rectangle) (B : ℕ) (c : Rgb) (buf : ℕ × ℕ → Rgb) :
    ℕ × ℕ → Rgb :=
  fun p => if borderMem r B p then black
           else if interiorMem r B p then c else buf p

/-- The whole leaf loop (main.rs 204): each leaf, paired with its sampled
palette color, is painted in sequence into the buffer. -/
def paint (B : ℕ) (leaves : List (Rectangle × Rgb)) (buf : ℕ × ℕ → Rgb) :
    ℕ × ℕ → Rgb :=
  leaves.foldl (fun b lc => paintLeaf lc.1 B lc.2 b) buf

/-- Modelled from the spec (§4.2 step 3), for comparison with the code's
`borderMem`: top band `[x, x+width) × [y, y+B)`, bottom band
`[x, x+width) × [y+height-B, y+height)`, left band `[x, x+B) × [y, y+height)`,
right band `[x+width-B, x+width) × [y, y+height)`. -/
def specBorderMem (r : Rectangle) (B : ℕ) (p : ℕ × ℕ) : Prop :=
  (r.x ≤ p.1 ∧ p.1 < r.x + r.width ∧
    ((r.y ≤ p.2 ∧ p.2 < r.y + B) ∨
     (r.y + r.height - B ≤ p.2 ∧ p.2 < r.y + r.height))) ∨
  (r.y ≤ p.2 ∧ p.2 < r.y + r.height ∧
    ((r.x ≤ p.1 ∧ p.1 < r.x + B) ∨
     (r.x + r.width - B ≤ p.1 ∧ p.1 < r.x + r.width)))

instance (r : Rectangle) (B : ℕ) (p : ℕ × ℕ) : Decidable (specBorderMem r B p) := by
  unfold specBorderMem; infer_instance

/-- The unchecked lower bound of the second left-band row loop
(main.rs 236), under debug semantics: `rectangle.y + rectangle.height -
border_width` with a plain, non-saturating u32 subtraction. -/
def leftBandBottomStart (r : Rectangle) (B : ℕ) : Option ℕ :=
  checkedSub (r.y + r.height) B

/-! ### Helper lemmas -/

/-- Evaluation rule for `splitExtent` at concrete rationals. -/
lemma splitExtent_eval (e n : ℕ) (ratio : ℚ)
    (h1 : (n : ℚ) ≤ (e : ℚ) * ratio) (h2 : (e : ℚ) * ratio < n + 1) :
    splitExtent e ratio = n := by
  unfold splitExtent
  have h3 : ⌊(e : ℚ) * ratio⌋ = (n : ℤ) := by
    rw [Int.floor_eq_iff]
    push_cast
    exact ⟨h1, h2⟩
  rw [h3]
  exact Int.toNat_natCast n

/-- The truncated child extent never exceeds the parent extent for
ratios at most 1. -/
lemma splitExtent_le (e : ℕ) (ratio : ℚ) (h : ratio ≤ 1) :
    splitExtent e ratio ≤ e := by
  unfold splitExtent
  have h3 : ⌊(e : ℚ) * ratio⌋ ≤ (e : ℤ) := by
    calc ⌊(e : ℚ) * ratio⌋ ≤ ⌊(e : ℚ)⌋ :=
          Int.floor_le_floor (mul_le_of_le_one_right (by positivity) h)
      _ = (e : ℤ) := Int.floor_natCast e
  omega

/-- The truncated child extent is strictly below a positive parent extent
for ratios at most `3/5`. -/
lemma splitExtent_lt (e : ℕ) (he : 0 < e) (ratio : ℚ) (h : ratio ≤ 3/5) :
    splitExtent e ratio < e := by
  unfold splitExtent
  have h3 : ⌊(e : ℚ) * ratio⌋ < (e : ℤ) := by
    rw [Int.floor_lt]
    push_cast
    have he' : (0 : ℚ) < e := by exact_mod_cast he
    nlinarith
  omega

/-- The truncated child extent is positive when the parent extent is at
least 3 and the ratio at least `2/5`. -/
lemma splitExtent_pos (e : ℕ) (he : 3 ≤ e) (ratio : ℚ) (h : 2/5 ≤ ratio) :
    0 < splitExtent e ratio := by
  unfold splitExtent
  have h3 : (1 : ℤ) ≤ ⌊(e : ℚ) * ratio⌋ := by
    rw [Int.le_floor]
    have he' : (3 : ℚ) ≤ e := by exact_mod_cast he
    have hm : (3 : ℚ) * (2/5) ≤ (e : ℚ) * ratio :=
      mul_le_mul he' h (by norm_num) (by linarith)
    push_cast
    linarith
  omega

/-- Axis selection succeeds on positive extents and returns the forced or
random axis of main.rs 152-161. -/
lemma chooseAxis_isSome {r : Rectangle} (hw : r.width ≠ 0) (hh : r.height ≠ 0)
    (rnd : Bool) :
    r.chooseAxis rnd = some (if 2 < r.width / r.height then true
      else if 2 < r.height / r.width then false else rnd) := by
  unfold Rectangle.chooseAxis checkedDiv
  rw [if_neg hh, if_neg hw]
  by_cases h1 : 2 < r.width / r.height
  · simp [h1]
  · by_cases h2 : 2 < r.height / r.width <;> simp [h1, h2]

/-- A successful split produces one of the two child shapes of
main.rs 166-176. -/
lemma split_shape {r : Rectangle} {rnd : Bool} {ratio : ℚ} {l rt : Rectangle}
    (hs : r.split rnd ratio = some (l, rt)) :
    (l = ⟨r.x, r.y, splitExtent r.width ratio, r.height⟩ ∧
     rt = ⟨r.x + splitExtent r.width ratio, r.y,
           r.width - splitExtent r.width ratio, r.height⟩) ∨
    (l = ⟨r.x, r.y, r.width, splitExtent r.height ratio⟩ ∧
     rt = ⟨r.x, r.y + splitExtent r.height ratio, r.width,
           r.height - splitExtent r.height ratio⟩) := by
  unfold Rectangle.split at hs
  rcases h : r.chooseAxis rnd with _ | b
  · rw [h] at hs; simp at hs
  · rw [h] at hs
    cases b
    · right
      simp only [Option.some.injEq, Prod.mk.injEq] at hs
      exact ⟨hs.1.symm, hs.2.symm⟩
    · left
      simp only [Option.some.injEq, Prod.mk.injEq] at hs
      exact ⟨hs.1.symm, hs.2.symm⟩

/-- Splitting a rectangle with positive extents never panics. -/
lemma split_isSome {r : Rectangle} (hw : 0 < r.width) (hh : 0 < r.height)
    (rnd : Bool) (ratio : ℚ) :
    ∃ l rt, r.split rnd ratio = some (l, rt) := by
  have hca := @chooseAxis_isSome r (by omega) (by omega) rnd
  unfold Rectangle.split
  rw [hca]
  cases (if 2 < r.width / r.height then true
      else if 2 < r.height / r.width then false else rnd)
  · exact ⟨_, _, rfl⟩
  · exact ⟨_, _, rfl⟩

/-- Single-split tiling: for ratios at most 1 the two children partition the
parent's pixel set. -/
lemma split_tile {r : Rectangle} {rnd : Bool} {ratio : ℚ} {l rt : Rectangle}
    (hr : ratio ≤ 1) (hs : r.split rnd ratio = some (l, rt)) :
    (∀ p, r.contains p ↔ (l.contains p ∨ rt.contains p)) ∧
    (∀ p, ¬ (l.contains p ∧ rt.contains p)) := by
  rcases split_shape hs with ⟨h1, h2⟩ | ⟨h1, h2⟩ <;> subst h1 h2
  · have hle := splitExtent_le r.width ratio hr
    constructor <;> intro p <;> unfold Rectangle.contains <;> dsimp <;> omega
  · have hle := splitExtent_le r.height ratio hr
    constructor <;> intro p <;> unfold Rectangle.contains <;> dsimp <;> omega

/-- Main induction for the builder: a successful build from fuel `n` yields
`2^n` leaves that tile the subtree's rectangle disjointly, provided the rng's
ratio contract (values in `[0.4, 0.6]`) holds. -/
lemma build_tiles (orc : List Bool → Bool × ℚ)
    (hr : ∀ path, 2/5 ≤ (orc path).2 ∧ (orc path).2 ≤ 3/5) :
    ∀ (n : ℕ) (r : Rectangle) (path : List Bool) (t : Tree),
      build orc n r path = some t →
      t.leaves.length = 2 ^ n ∧
      (∀ p, r.contains p ↔ ∃ l ∈ t.leaves, l.contains p) ∧
      t.leaves.Pairwise (fun a b => ∀ p, ¬ (a.contains p ∧ b.contains p)) := by
  intro n
  induction n with
  | zero =>
    intro r path t ht
    unfold build at ht
    simp only [Option.some.injEq] at ht
    subst ht
    refine ⟨rfl, ?_, ?_⟩
    · intro p
      simp [Tree.leaves]
    · simp [Tree.leaves]
  | succ n ih =>
    intro r path t ht
    unfold build at ht
    cases hsplit : r.split (orc path).1 (orc path).2 with
    | none => rw [hsplit] at ht; exact absurd ht (by simp)
    | some pr =>
      obtain ⟨l, rt⟩ := pr
      rw [hsplit] at ht
      dsimp only at ht
      cases hbl : build orc n l (false :: path) with
      | none => rw [hbl] at ht; exact absurd ht (by simp)
      | some tl =>
        cases hbr : build orc n rt (true :: path) with
        | none => rw [hbl, hbr] at ht; exact absurd ht (by simp)
        | some tr =>
          rw [hbl, hbr] at ht
          simp only [Option.some.injEq] at ht
          subst ht
          obtain ⟨hlen_l, hcov_l, hpw_l⟩ := ih l (false :: path) tl hbl
          obtain ⟨hlen_r, hcov_r, hpw_r⟩ := ih rt (true :: path) tr hbr
          have htile := split_tile (le_trans (hr path).2 (by norm_num)) hsplit
          refine ⟨?_, ?_, ?_⟩
          · simp only [Tree.leaves, List.length_append, hlen_l, hlen_r, pow_succ]
            omega
          · intro p
            rw [htile.1 p, hcov_l p, hcov_r p]
            simp only [Tree.leaves, List.mem_append]
            constructor
            · rintro (⟨a, ha, hp⟩ | ⟨a, ha, hp⟩)
              · exact ⟨a, Or.inl ha, hp⟩
              · exact ⟨a, Or.inr ha, hp⟩
            · rintro ⟨a, ha | ha, hp⟩
              · exact Or.inl ⟨a, ha, hp⟩
              · exact Or.inr ⟨a, ha, hp⟩
          · simp only [Tree.leaves]
            rw [List.pairwise_append]
            refine ⟨hpw_l, hpw_r, ?_⟩
            intro a ha b hb p hab
            have h1 : l.contains p := (hcov_l p).mpr ⟨a, ha, hab.1⟩
            have h2 : rt.contains p := (hcov_r p).mpr ⟨b, hb, hab.2⟩
            exact htile.2 p ⟨h1, h2⟩

/-- With a border width at most both extents, every pixel a leaf's loops
write lies inside the leaf's own rectangle. -/
lemma writes_subset {r : Rectangle} {B : ℕ} (hw : B ≤ r.width)
    (hh : B ≤ r.height) (p : ℕ × ℕ) (hp : writesMem r B p) : r.contains p := by
  have hwr : wrapSub (r.y + r.height) B = r.y + r.height - B := by
    unfold wrapSub
    rw [if_pos (by omega)]
  unfold writesMem interiorMem borderMem topBandMem bottomBandMem leftBandMem
    leftBandBottomMem satSub satAdd at hp
  rw [hwr] at hp
  unfold Rectangle.contains
  unfold U32MOD at hp
  omega

/-- Painting two leaves whose write sets do not meet commutes. -/
lemma paintLeaf_comm {a b : Rectangle} {B : ℕ} {ca cb : Rgb}
    (hdisj : ∀ p, ¬ (writesMem a B p ∧ writesMem b B p)) (buf : ℕ × ℕ → Rgb) :
    paintLeaf b B cb (paintLeaf a B ca buf) =
      paintLeaf a B ca (paintLeaf b B cb buf) := by
  funext p
  have hd := hdisj p
  unfold writesMem at hd
  unfold paintLeaf
  by_cases hba : borderMem a B p <;> by_cases hia : interiorMem a B p <;>
    by_cases hbb : borderMem b B p <;> by_cases hib : interiorMem b B p <;>
    simp only [hba, hia, hbb, hib, if_true, if_false] <;> tauto

/-! ### Concrete evaluations -/

/-- A 1-by-1 rectangle splits horizontally into a zero-width left child and a
copy of itself, since `(1 as f32 * 0.5).trunc()` is 0. -/
lemma split_1x1_half :
    Rectangle.split ⟨0, 0, 1, 1⟩ true (1/2) = some (⟨0, 0, 0, 1⟩, ⟨0, 0, 1, 1⟩) := by
  have hca := @chooseAxis_isSome ⟨0, 0, 1, 1⟩ (by norm_num) (by norm_num) true
  norm_num at hca
  unfold Rectangle.split
  rw [hca]
  dsimp only
  rw [splitExtent_eval 1 0 (1/2) (by norm_num) (by norm_num)]

/-- Same split with ratio `2/5`, the lower end of the rng range. -/
lemma split_1x1_two_fifths :
    Rectangle.split ⟨0, 0, 1, 1⟩ true (2/5) = some (⟨0, 0, 0, 1⟩, ⟨0, 0, 1, 1⟩) := by
  have hca := @chooseAxis_isSome ⟨0, 0, 1, 1⟩ (by norm_num) (by norm_num) true
  norm_num at hca
  unfold Rectangle.split
  rw [hca]
  dsimp only
  rw [splitExtent_eval 1 0 (2/5) (by norm_num) (by norm_num)]

/-- Splitting a zero-width rectangle panics: `height / width` divides by 0
(main.rs 157). -/
lemma split_zero_width (rnd : Bool) (ratio : ℚ) :
    Rectangle.split ⟨0, 0, 0, 1⟩ rnd ratio = none := by
  simp [Rectangle.split, Rectangle.chooseAxis, checkedDiv]

/-- Splitting a zero-height rectangle panics: `width / height` divides by 0
(main.rs 155). -/
lemma split_zero_height (rnd : Bool) (ratio : ℚ) :
    Rectangle.split ⟨0, 0, 3, 0⟩ rnd ratio = none := by
  simp [Rectangle.split, Rectangle.chooseAxis, checkedDiv]

/-- Building a 1-by-1 canvas to depth 2 with mid-range ratios panics: the
first split produces a zero-width child, whose own split divides by zero. -/
lemma build_1x1_depth2_half :
    build (fun _ => (true, (1:ℚ)/2)) 2 ⟨0, 0, 1, 1⟩ [] = none := by
  have hb1 : build (fun _ => (true, (1:ℚ)/2)) 1 ⟨0, 0, 0, 1⟩ [false] = none := by
    unfold build
    dsimp only
    rw [split_zero_width]
  unfold build
  dsimp only
  rw [split_1x1_half]
  dsimp only
  rw [hb1]

/-- A 3-by-3 rectangle splits horizontally at ratio `1/2` into widths 1
and 2. -/
lemma split_3x3_half :
    Rectangle.split ⟨0, 0, 3, 3⟩ true (1/2) = some (⟨0, 0, 1, 3⟩, ⟨1, 0, 2, 3⟩) := by
  have hca := @chooseAxis_isSome ⟨0, 0, 3, 3⟩ (by norm_num) (by norm_num) true
  norm_num at hca
  unfold Rectangle.split
  rw [hca]
  dsimp only
  rw [splitExtent_eval 3 1 (1/2) (by norm_num) (by norm_num)]

/-- Building a 10-by-10 canvas to depth 1 at ratio `1/2` yields the two
half-canvas leaves. -/
lemma build_10x10_depth1 :
    build (fun _ => (true, (1:ℚ)/2)) 1 ⟨0, 0, 10, 10⟩ [] =
      some (Tree.node ⟨0, 0, 10, 10⟩ (Tree.leaf ⟨0, 0, 5, 10⟩)
        (Tree.leaf ⟨5, 0, 5, 10⟩)) := by
  have hs : Rectangle.split ⟨0, 0, 10, 10⟩ true (1/2) =
      some (⟨0, 0, 5, 10⟩, ⟨5, 0, 5, 10⟩) := by
    have hca := @chooseAxis_isSome ⟨0, 0, 10, 10⟩ (by norm_num) (by norm_num) true
    norm_num at hca
    unfold Rectangle.split
    rw [hca]
    dsimp only
    rw [splitExtent_eval 10 5 (1/2) (by norm_num) (by norm_num)]
  unfold build
  dsimp only
  rw [hs]
  dsimp only
  simp only [build]

/-! ### Claims -/

/-- Claim C1, counterexample: the claim quantifies over every positive root
and every maxDepth, but `build` does not always produce a tree — on a 1-by-1
root with maxDepth 2 the first split produces a zero-width child whose own
split divides by zero and panics, even though the root is positive and every
ratio drawn lies in `[0.4, 0.6]`. -/
theorem c1_counterexample :
    0 < (⟨0, 0, 1, 1⟩ : Rectangle).width ∧
    0 < (⟨0, 0, 1, 1⟩ : Rectangle).height ∧
    (∀ path : List Bool, 2/5 ≤ ((fun _ => (true, (1:ℚ)/2)) path).2 ∧
      ((fun _ => (true, (1:ℚ)/2)) path).2 ≤ 3/5) ∧
    build (fun _ => (true, (1:ℚ)/2)) 2 ⟨0, 0, 1, 1⟩ [] = none :=
  ⟨by norm_num, by norm_num, fun _ => ⟨by norm_num, by norm_num⟩,
    build_1x1_depth2_half⟩

/-- Claim C1, amended: whenever `build(root, n)` completes without panicking
(returns a tree) and every drawn ratio lies in `[0.4, 0.6]`, the tree's leaf
extraction yields exactly `2^n` rectangles that are pairwise disjoint and
collectively tile the root with no gap and no overlap. -/
theorem c1_leaf_tiling (orc : List Bool → Bool × ℚ) (n : ℕ) (root : Rectangle)
    (t : Tree) (hr : ∀ path, 2/5 ≤ (orc path).2 ∧ (orc path).2 ≤ 3/5)
    (hw : 0 < root.width) (hh : 0 < root.height)
    (hb : build orc n root [] = some t) :
    t.leaves.length = 2 ^ n ∧
    t.leaves.Pairwise (fun a b => ∀ p, ¬ (a.contains p ∧ b.contains p)) ∧
    (∀ p, root.contains p ↔ ∃ l ∈ t.leaves, l.contains p) := by
  obtain ⟨h1, h2, h3⟩ := build_tiles orc hr n root [] t hb
  exact ⟨h1, h3, h2⟩

/-- Witness for C1 at a 10-by-10 root, depth 1, ratio `1/2`. -/
theorem c1_leaf_tiling_witness :
    (Tree.node (⟨0, 0, 10, 10⟩ : Rectangle) (Tree.leaf ⟨0, 0, 5, 10⟩)
        (Tree.leaf ⟨5, 0, 5, 10⟩)).leaves.length = 2 ^ 1 ∧
    (Tree.node (⟨0, 0, 10, 10⟩ : Rectangle) (Tree.leaf ⟨0, 0, 5, 10⟩)
        (Tree.leaf ⟨5, 0, 5, 10⟩)).leaves.Pairwise
      (fun a b => ∀ p, ¬ (a.contains p ∧ b.contains p)) ∧
    (∀ p, (⟨0, 0, 10, 10⟩ : Rectangle).contains p ↔
      ∃ l ∈ (Tree.node (⟨0, 0, 10, 10⟩ : Rectangle) (Tree.leaf ⟨0, 0, 5, 10⟩)
        (Tree.leaf ⟨5, 0, 5, 10⟩)).leaves, l.contains p) :=
  c1_leaf_tiling (fun _ => (true, (1:ℚ)/2)) 1 ⟨0, 0, 10, 10⟩ _
    (fun _ => ⟨by norm_num, by norm_num⟩) (by norm_num) (by norm_num)
    build_10x10_depth1

/-- Claim C2: a single `Rectangle::split` of a rectangle with positive width
and height succeeds, and the two children partition the parent's pixel set —
their union is the parent and their intersection is empty — for either value
of the axis coin and every ratio in `[0.4, 0.6]`. -/
theorem c2_single_split_tiles (r : Rectangle) (rnd : Bool) (ratio : ℚ)
    (hw : 0 < r.width) (hh : 0 < r.height)
    (h1 : 2/5 ≤ ratio) (h2 : ratio ≤ 3/5) :
    ∃ l rt, r.split rnd ratio = some (l, rt) ∧
      (∀ p, r.contains p ↔ (l.contains p ∨ rt.contains p)) ∧
      (∀ p, ¬ (l.contains p ∧ rt.contains p)) := by
  obtain ⟨l, rt, hs⟩ := split_isSome hw hh rnd ratio
  have ht := split_tile (le_trans h2 (by norm_num)) hs
  exact ⟨l, rt, hs, ht.1, ht.2⟩

/-- Witness for C2 at a 3-by-3 rectangle, ratio `1/2`. -/
theorem c2_single_split_tiles_witness :
    ∃ l rt, Rectangle.split ⟨0, 0, 3, 3⟩ true (1/2) = some (l, rt) ∧
      (∀ p, (⟨0, 0, 3, 3⟩ : Rectangle).contains p ↔
        (l.contains p ∨ rt.contains p)) ∧
      (∀ p, ¬ (l.contains p ∧ rt.contains p)) :=
  c2_single_split_tiles ⟨0, 0, 3, 3⟩ true (1/2) (by norm_num) (by norm_num)
    (by norm_num) (by norm_num)

/-- Claim C5, counterexample: splitting the positive 1-by-1 rectangle
horizontally at ratio `2/5` yields a left child of width 0, violating the
claimed invariant `width > 0 && height > 0` for children of positive
parents. -/
theorem c5_counterexample :
    0 < (⟨0, 0, 1, 1⟩ : Rectangle).width ∧
    0 < (⟨0, 0, 1, 1⟩ : Rectangle).height ∧
    (2/5 : ℚ) ≤ 2/5 ∧ (2/5 : ℚ) ≤ 3/5 ∧
    Rectangle.split ⟨0, 0, 1, 1⟩ true (2/5) = some (⟨0, 0, 0, 1⟩, ⟨0, 0, 1, 1⟩) ∧
    ¬ 0 < (⟨0, 0, 0, 1⟩ : Rectangle).width :=
  ⟨by norm_num, by norm_num, by norm_num, by norm_num, split_1x1_two_fifths,
    by norm_num⟩

/-- Claim C5, amended: both children of a split have positive width and
height provided the parent's width and height are both at least 3 (the spec's
own `extent >= 3` bound) and the ratio lies in `[0.4, 0.6]`. -/
theorem c5_children_positive (r : Rectangle) (rnd : Bool) (ratio : ℚ)
    (l rt : Rectangle) (hw : 3 ≤ r.width) (hh : 3 ≤ r.height)
    (h1 : 2/5 ≤ ratio) (h2 : ratio ≤ 3/5)
    (hs : r.split rnd ratio = some (l, rt)) :
    0 < l.width ∧ 0 < l.height ∧ 0 < rt.width ∧ 0 < rt.height := by
  rcases split_shape hs with ⟨h3, h4⟩ | ⟨h3, h4⟩ <;> subst h3 <;> subst h4 <;>
    dsimp only
  · have hp := splitExtent_pos r.width hw ratio h1
    have hl := splitExtent_lt r.width (by omega) ratio h2
    exact ⟨hp, by omega, by omega, by omega⟩
  · have hp := splitExtent_pos r.height hh ratio h1
    have hl := splitExtent_lt r.height (by omega) ratio h2
    exact ⟨by omega, hp, by omega, by omega⟩

/-- Witness for C5 at a 3-by-3 rectangle, ratio `1/2`. -/
theorem c5_children_positive_witness :
    0 < (⟨0, 0, 1, 3⟩ : Rectangle).width ∧
    0 < (⟨0, 0, 1, 3⟩ : Rectangle).height ∧
    0 < (⟨1, 0, 2, 3⟩ : Rectangle).width ∧
    0 < (⟨1, 0, 2, 3⟩ : Rectangle).height :=
  c5_children_positive ⟨0, 0, 3, 3⟩ true (1/2) ⟨0, 0, 1, 3⟩ ⟨1, 0, 2, 3⟩
    (by norm_num) (by norm_num) (by norm_num) (by norm_num) split_3x3_half

/-- Claim C7: when a leaf is narrower than `2*borderWidth` in either
dimension, the interior-fill range is empty — no pixel satisfies the interior
bounds, whose upper ends are computed with saturating arithmetic. -/
theorem c7_interior_empty (r : Rectangle) (B : ℕ)
    (h : r.width < 2 * B ∨ r.height < 2 * B) :
    ∀ p, ¬ interiorMem r B p := by
  intro p hp
  have h1 := min_le_left (r.x + r.width) (U32MOD - 1)
  have h2 := min_le_left (r.y + r.height) (U32MOD - 1)
  unfold interiorMem satSub satAdd at hp
  omega

/-- Witness for C7 at a 1-by-5 leaf with border width 1. -/
theorem c7_interior_empty_witness :
    ((⟨0, 0, 1, 5⟩ : Rectangle).width < 2 * 1 ∨
      (⟨0, 0, 1, 5⟩ : Rectangle).height < 2 * 1) ∧
    ∀ p, ¬ interiorMem ⟨0, 0, 1, 5⟩ 1 p :=
  ⟨Or.inl (by norm_num), c7_interior_empty ⟨0, 0, 1, 5⟩ 1 (Or.inl (by norm_num))⟩

/-- Claim C8: for positive extents the split axis is horizontal whenever
`width / height > 2` under integer division, otherwise vertical whenever
`height / width > 2`, and otherwise equal to the fair coin `rnd` drawn by
`random()` — so in the unforced case each axis is taken with probability
1/2. -/
theorem c8_axis_selection (r : Rectangle) (rnd : Bool)
    (hw : 0 < r.width) (hh : 0 < r.height) :
    r.chooseAxis rnd = some (if 2 < r.width / r.height then true
      else if 2 < r.height / r.width then false else rnd) :=
  @chooseAxis_isSome r (by omega) (by omega) rnd

/-- Witness for C8: one instance of each of the three branches. -/
theorem c8_axis_selection_witness :
    (⟨0, 0, 7, 2⟩ : Rectangle).chooseAxis false = some true ∧
    (⟨0, 0, 2, 7⟩ : Rectangle).chooseAxis true = some false ∧
    (⟨0, 0, 4, 4⟩ : Rectangle).chooseAxis true = some true := by
  refine ⟨?_, ?_, ?_⟩
  · have h := c8_axis_selection ⟨0, 0, 7, 2⟩ false (by norm_num) (by norm_num)
    norm_num at h
    exact h
  · have h := c8_axis_selection ⟨0, 0, 2, 7⟩ true (by norm_num) (by norm_num)
    norm_num at h
    exact h
  · have h := c8_axis_selection ⟨0, 0, 4, 4⟩ true (by norm_num) (by norm_num)
    norm_num at h
    exact h

/-- Claim C10: `Rectangle::split` is not total — it panics by division by
zero on zero-height rectangles (and on zero-width ones when the first test is
not taken); such rectangles are produced by splits of positive rectangles of
extent at most 2, and a depth-2 build of a 1-by-1 canvas reaches the
panic. -/
theorem c10_split_panics :
    Rectangle.split ⟨0, 0, 3, 0⟩ true (1/2) = none ∧
    Rectangle.split ⟨0, 0, 0, 1⟩ true (1/2) = none ∧
    Rectangle.split ⟨0, 0, 1, 1⟩ true (2/5) = some (⟨0, 0, 0, 1⟩, ⟨0, 0, 1, 1⟩) ∧
    build (fun _ => (true, (2:ℚ)/5)) 2 ⟨0, 0, 1, 1⟩ [] = none := by
  refine ⟨split_zero_height true (1/2), split_zero_width true (1/2),
    split_1x1_two_fifths, ?_⟩
  have hb1 : build (fun _ => (true, (2:ℚ)/5)) 1 ⟨0, 0, 0, 1⟩ [false] = none := by
    unfold build
    dsimp only
    rw [split_zero_width]
  unfold build
  dsimp only
  rw [split_1x1_two_fifths]
  dsimp only
  rw [hb1]

/-- Claim C3, divergence: the compositor does not paint the bands the claim
describes.  For the leaf at `x = 500` of width 500 with border width 1 the
claimed top band contains pixel `(999, 0)`, but the code paints no black
there: the top/bottom loops run `x` over `[x, width) = [500, 500)`, which is
empty, and no loop paints the right-edge columns at all. -/
theorem c3_border_divergence :
    ¬ borderMem ⟨500, 0, 500, 500⟩ 1 (999, 0) ∧
    specBorderMem ⟨500, 0, 500, 500⟩ 1 (999, 0) := by decide

/-- Claim C4, divergence: not every border-range subtraction saturates.  The
lower bound of the second left-band row loop (main.rs 236) is the plain u32
subtraction `y + height - border_width`, which underflows — panics in debug
builds — on a degenerate zero-height leaf at `y = 0` with border width 1,
whereas the saturating subtraction used elsewhere would clamp it to 0. -/
theorem c4_unchecked_sub :
    leftBandBottomStart ⟨0, 0, 5, 0⟩ 1 = none ∧ satSub (0 + 0) 1 = 0 := by
  decide

/-- Claim C6, counterexample: a leaf's pixel writes do not always stay within
its own rectangle.  For the leaf `(0, 0, 1, 4)` with border width 2 the
left-band loop paints column 1, which lies outside the leaf's single column
`[0, 1)`. -/
theorem c6_counterexample :
    writesMem ⟨0, 0, 1, 4⟩ 2 (1, 0) ∧
    ¬ (⟨0, 0, 1, 4⟩ : Rectangle).contains (1, 0) := by decide

/-- Claim C6, amended: if every leaf is at least `borderWidth` wide and tall,
then each leaf's pixel writes stay within its own rectangle bounds, so the
writes of distinct pairwise-disjoint leaves never conflict and painting any
permutation of the leaf sequence produces the same final pixel buffer. -/
theorem c6_paint_commutes (B : ℕ) (leaves l2 : List (Rectangle × Rgb))
    (buf : ℕ × ℕ → Rgb) (hperm : leaves.Perm l2)
    (hext : ∀ lc ∈ leaves, B ≤ lc.1.width ∧ B ≤ lc.1.height)
    (hdisj : ∀ a ∈ leaves, ∀ b ∈ leaves, a ≠ b →
      ∀ p, ¬ (a.1.contains p ∧ b.1.contains p)) :
    (∀ lc ∈ leaves, ∀ p, writesMem lc.1 B p → lc.1.contains p) ∧
    paint B leaves buf = paint B l2 buf := by
  have hsub : ∀ lc ∈ leaves, ∀ p, writesMem lc.1 B p → lc.1.contains p := by
    intro lc hlc p hp
    exact writes_subset (hext lc hlc).1 (hext lc hlc).2 p hp
  refine ⟨hsub, ?_⟩
  unfold paint
  refine hperm.foldl_eq' ?_ buf
  intro x hx y hy z
  by_cases hxy : x = y
  · subst hxy; rfl
  · have hd : ∀ p, ¬ (writesMem x.1 B p ∧ writesMem y.1 B p) := by
      intro p hpp
      exact hdisj x hx y hy hxy p ⟨hsub x hx p hpp.1, hsub y hy p hpp.2⟩
    exact paintLeaf_comm hd z

/-- Witness for C6: two disjoint 2-by-2 leaves painted in both orders. -/
theorem c6_paint_commutes_witness :
    (∀ lc ∈ [((⟨0, 0, 2, 2⟩ : Rectangle), (⟨1, 2, 3⟩ : Rgb)),
        (⟨2, 0, 2, 2⟩, ⟨4, 5, 6⟩)],
      ∀ p, writesMem lc.1 1 p → lc.1.contains p) ∧
    paint 1 [((⟨0, 0, 2, 2⟩ : Rectangle), (⟨1, 2, 3⟩ : Rgb)),
        (⟨2, 0, 2, 2⟩, ⟨4, 5, 6⟩)] (fun _ => black) =
      paint 1 [((⟨2, 0, 2, 2⟩ : Rectangle), (⟨4, 5, 6⟩ : Rgb)),
        (⟨0, 0, 2, 2⟩, ⟨1, 2, 3⟩)] (fun _ => black) := by
  apply c6_paint_commutes
  · decide
  · decide
  · intro a ha b hb hne p hcon
    simp only [List.mem_cons, List.mem_singleton, List.not_mem_nil, or_false] at ha hb
    rcases ha with rfl | rfl <;> rcases hb with rfl | rfl
    · exact hne rfl
    · unfold Rectangle.contains at hcon; dsimp only at hcon; omega
    · unfold Rectangle.contains at hcon; dsimp only at hcon; omega
    · exact hne rfl

/-- Claim C9: with `width = 1000`, `height = 1000`, `levels = 0` the builder
produces the single whole-canvas leaf, the derived border width is 1, every
pixel on the canvas's 1-pixel perimeter ends up black (the right column
because the zero-initialised buffer is never repainted there), and every
non-perimeter pixel is set to the leaf's sampled palette color. -/
theorem c9_levels_zero (orc : List Bool → Bool × ℚ) (c : Rgb) (px py : ℕ)
    (hx : px < 1000) (hy : py < 1000) :
    build orc 0 ⟨0, 0, 1000, 1000⟩ [] = some (Tree.leaf ⟨0, 0, 1000, 1000⟩) ∧
    (Tree.leaf (⟨0, 0, 1000, 1000⟩ : Rectangle)).leaves = [⟨0, 0, 1000, 1000⟩] ∧
    borderWidth 1000 1000 = 1 ∧
    ((px = 0 ∨ px = 999 ∨ py = 0 ∨ py = 999) →
      paint (borderWidth 1000 1000) [(⟨0, 0, 1000, 1000⟩, c)]
        (fun _ => black) (px, py) = black) ∧
    ((0 < px ∧ px < 999 ∧ 0 < py ∧ py < 999) →
      paint (borderWidth 1000 1000) [(⟨0, 0, 1000, 1000⟩, c)]
        (fun _ => black) (px, py) = c) := by
  have hbw : borderWidth 1000 1000 = 1 := rfl
  have hws : wrapSub (0 + 1000) 1 = 999 := by
    unfold wrapSub
    norm_num
  have hbor : borderMem ⟨0, 0, 1000, 1000⟩ 1 (px, py) ↔
      (py = 0 ∨ py = 999 ∨ px = 0) := by
    unfold borderMem topBandMem bottomBandMem leftBandMem leftBandBottomMem
      satSub
    dsimp only
    rw [hws]
    omega
  have hsa : satSub (satAdd 0 1000) 1 = 999 := by
    unfold satSub satAdd U32MOD
    norm_num
  have hint : interiorMem ⟨0, 0, 1000, 1000⟩ 1 (px, py) ↔
      (1 ≤ px ∧ px < 999 ∧ 1 ≤ py ∧ py < 999) := by
    unfold interiorMem
    dsimp only
    rw [hsa]
  refine ⟨rfl, rfl, hbw, ?_, ?_⟩
  · intro hper
    rw [hbw]
    unfold paint
    simp only [List.foldl]
    unfold paintLeaf
    by_cases hb : borderMem ⟨0, 0, 1000, 1000⟩ 1 (px, py)
    · rw [if_pos hb]
    · rw [if_neg hb]
      have hni : ¬ interiorMem ⟨0, 0, 1000, 1000⟩ 1 (px, py) := by
        rw [hint]
        rw [hbor] at hb
        omega
      rw [if_neg hni]
  · intro hin
    rw [hbw]
    have hb : ¬ borderMem ⟨0, 0, 1000, 1000⟩ 1 (px, py) := by
      rw [hbor]; omega
    have hi : interiorMem ⟨0, 0, 1000, 1000⟩ 1 (px, py) := by
      rw [hint]; omega
    unfold paint
    simp only [List.foldl]
    unfold paintLeaf
    rw [if_neg hb, if_pos hi]

/-- Witness for C9 at the center pixel and an arbitrary palette color. -/
theorem c9_levels_zero_witness :
    build (fun _ => (true, (1:ℚ)/2)) 0 ⟨0, 0, 1000, 1000⟩ [] =
      some (Tree.leaf ⟨0, 0, 1000, 1000⟩) ∧
    (Tree.leaf (⟨0, 0, 1000, 1000⟩ : Rectangle)).leaves = [⟨0, 0, 1000, 1000⟩] ∧
    borderWidth 1000 1000 = 1 ∧
    ((500 = 0 ∨ 500 = 999 ∨ 500 = 0 ∨ 500 = 999) →
      paint (borderWidth 1000 1000) [(⟨0, 0, 1000, 1000⟩, (⟨250, 10, 10⟩ : Rgb))]
        (fun _ => black) (500, 500) = black) ∧
    ((0 < 500 ∧ 500 < 999 ∧ 0 < 500 ∧ 500 < 999) →
      paint (borderWidth 1000 1000) [(⟨0, 0, 1000, 1000⟩, (⟨250, 10, 10⟩ : Rgb))]
        (fun _ => black) (500, 500) = ⟨250, 10, 10⟩) :=
  c9_levels_zero (fun _ => (true, (1:ℚ)/2)) ⟨250, 10, 10⟩ 500 500
    (by norm_num) (by norm_num)

end Mondrian
